import Mathlib

/-!
Verification of the trajectory-preprocessing core of `traclus/processing.py`.

The pipeline under study:
  raw records → `calculate_trajectory_features` (Feature Deriver)
             → `filter_invalid_moves` (Anomaly Filter)
             → `preprocess_data` (Trajectory Builder).

Embedding conventions:
* A pandas row is a `Row`; its base columns (`TaxiID`, `DateTime`, `Latitude`,
  `Longitude`) form a `Base`.  Missing values (`NaN` / `NaT`) are `none`.
* Timestamps are exact rationals (seconds); coordinates and derived columns are
  reals, with `Option` for missingness.
* `df.sort_values(['TaxiID','DateTime'])` is a stable lexicographic sort
  (pandas uses `np.lexsort` for multi-key sorts); we embed it as Mathlib's
  `insertionSort`, which is stable, with `NaT` ordered last (the `na_position`
  default).
* `groupby` with the default `sort=True` processes groups in ascending key
  order; `groupby(...).shift/diff` look at the previous row of the same group,
  which after the lexicographic sort is the immediately preceding row when it
  carries the same `TaxiID`.
-/

/-- Base columns of a row: `TaxiID`, `DateTime`, `Latitude`, `Longitude`.
`DateTime` is an absolute time in seconds (`none` = `NaT`); coordinates are
degrees (`none` = `NaN`). -/
structure Base where
  taxiID : Int
  dateTime : Option ℚ
  latitude : Option ℝ
  longitude : Option ℝ

/-- A dataframe row: base columns plus the derived columns `TimeDiff_s`,
`DistJump_m`, `Speed_kmh` (each `none` = `NaN`). -/
structure Row extends Base where
  timeDiff_s : Option ℝ
  distJump_m : Option ℝ
  speed_kmh : Option ℝ

/-- `EARTH_RADIUS_KM = 6371.0` from the source. -/
def EARTH_RADIUS_KM : ℝ := 6371

/-- Python's `math.radians`: degrees to radians. -/
noncomputable def degToRad (x : ℝ) : ℝ := x * (Real.pi / 180)

/-- The intermediate quantity `a` of the haversine formula
(`sin(dlat/2)**2 + cos(lat1) * cos(lat2) * sin(dlon/2)**2` on radian inputs),
on degree inputs. -/
noncomputable def hav_a (lon1 lat1 lon2 lat2 : ℝ) : ℝ :=
  Real.sin ((degToRad lat2 - degToRad lat1) / 2) ^ 2 +
    Real.cos (degToRad lat1) * Real.cos (degToRad lat2) *
      Real.sin ((degToRad lon2 - degToRad lon1) / 2) ^ 2

/-- `haversine(lon1, lat1, lon2, lat2)` from the source: `NaN` (here `none`)
if any input is missing, otherwise `2 * asin(sqrt(a)) * EARTH_RADIUS_KM * 1000`
meters. -/
noncomputable def haversine (lon1 lat1 lon2 lat2 : Option ℝ) : Option ℝ :=
  match lon1, lat1, lon2, lat2 with
  | some lo1, some la1, some lo2, some la2 =>
      some (2 * Real.arcsin (Real.sqrt (hav_a lo1 la1 lo2 la2)) * EARTH_RADIUS_KM * 1000)
  | _, _, _, _ => none

/-- Comparison on `DateTime` values used by the sorts; `NaT` (`none`) sorts
last, matching pandas' `na_position` default. -/
def timeLE : Option ℚ → Option ℚ → Bool
  | _, none => true
  | none, some _ => false
  | some a, some b => a ≤ b

/-- The lexicographic `['TaxiID', 'DateTime']` comparison of
`df.sort_values(['TaxiID', 'DateTime'])`. -/
def baseLe (a b : Base) : Bool :=
  a.taxiID < b.taxiID || (a.taxiID == b.taxiID && timeLE a.dateTime b.dateTime)

/-- `baseLe` read on rows, as a proposition (for `insertionSort`). -/
def rowLe (a b : Row) : Prop := baseLe a.toBase b.toBase = true

instance : DecidableRel rowLe := fun a b => by unfold rowLe; infer_instance

instance : IsTotal Row rowLe := ⟨by
  intro a b
  unfold rowLe baseLe
  simp only [Bool.or_eq_true, Bool.and_eq_true, decide_eq_true_eq, beq_iff_eq]
  rcases lt_trichotomy a.toBase.taxiID b.toBase.taxiID with h | h | h
  · exact Or.inl (Or.inl h)
  · have ht : timeLE a.toBase.dateTime b.toBase.dateTime = true ∨
        timeLE b.toBase.dateTime a.toBase.dateTime = true := by
      cases a.toBase.dateTime <;> cases b.toBase.dateTime <;> simp [timeLE]
      exact le_total _ _
    rcases ht with ht | ht
    · exact Or.inl (Or.inr ⟨h, ht⟩)
    · exact Or.inr (Or.inr ⟨h.symm, ht⟩)
  · exact Or.inr (Or.inl h)⟩

instance : IsTrans Row rowLe := ⟨by
  intro a b c hab hbc
  unfold rowLe baseLe at hab hbc ⊢
  simp only [Bool.or_eq_true, Bool.and_eq_true, decide_eq_true_eq, beq_iff_eq] at hab hbc ⊢
  have ttrans : ∀ x y z : Option ℚ,
      timeLE x y = true → timeLE y z = true → timeLE x z = true := by
    intro x y z
    cases x <;> cases y <;> cases z <;> simp [timeLE]
    exact le_trans
  rcases hab with h1 | ⟨h1, ht1⟩
  · rcases hbc with h2 | ⟨h2, ht2⟩
    · exact Or.inl (lt_trans h1 h2)
    · exact Or.inl (h2 ▸ h1)
  · rcases hbc with h2 | ⟨h2, ht2⟩
    · exact Or.inl (h1 ▸ h2)
    · exact Or.inr ⟨h1.trans h2, ttrans _ _ _ ht1 ht2⟩⟩

/-- The sort key of a row: `(TaxiID, DateTime)`. -/
def keyOf (r : Row) : Int × Option ℚ := (r.taxiID, r.dateTime)

/-- Line 74 of the source: `df.sort_values(['TaxiID', 'DateTime'])`, a stable
lexicographic sort. -/
def sortRows (df : List Row) : List Row := List.insertionSort rowLe df

/-- One step of the grouped feature derivation: given the base columns of the
previous row of the same `TaxiID` group (`none` at a group start) and the
current row's base columns, produce the row with `TimeDiff_s`, `DistJump_m`
and `Speed_kmh` as computed by lines 76–88 of the source. -/
noncomputable def deriveRow (p : Option Base) (b : Base) : Row :=
  let tdq : Option ℚ :=
    match p with
    | some q =>
        match q.dateTime, b.dateTime with
        | some t0, some t1 => some (t1 - t0)
        | _, _ => none
    | none => none
  let dj : Option ℝ :=
    match p with
    | some q =>
        if q.latitude.isSome then haversine q.longitude q.latitude b.longitude b.latitude
        else none
    | none => none
  let validPrev : Bool := match p with | some q => q.latitude.isSome | none => false
  let tdPos : Bool := match tdq with | some t => decide ((1:ℚ)/1000000 < t) | none => false
  let sp : Option ℝ :=
    if validPrev && tdPos && dj.isSome then
      match dj, tdq with
      | some d, some t => some (d / (t : ℝ) * 3.6)
      | _, _ => none
    else none
  { toBase := b
    timeDiff_s := tdq.map (fun t => (t : ℝ))
    distJump_m := dj
    speed_kmh := sp }

/-- The grouped scan over the sorted frame: `groupby('TaxiID').diff/shift`.
The cursor is the previous row's base columns; it counts as the in-group
predecessor exactly when its `TaxiID` matches (rows of one group are
contiguous after the lexicographic sort). -/
noncomputable def addFeatures : Option Base → List Row → List Row
  | _, [] => []
  | prev, r :: rest =>
      let p : Option Base :=
        match prev with
        | some q => if q.taxiID = r.taxiID then some q else none
        | none => none
      deriveRow p r.toBase :: addFeatures (some r.toBase) rest

/-- `calculate_trajectory_features` (Feature Deriver), lines 72–90. -/
noncomputable def calculate_trajectory_features (df : List Row) : List Row :=
  addFeatures none (sortRows df)

/-- Modelled from the spec's wording of the speed rule (for the refinement
claim C3): `speed_kmh = (dist_jump_m / time_diff_s) × 3.6` when
`time_diff_s > 1e-6` and `dist_jump_m` is non-null, and null otherwise. -/
noncomputable def speedSpec (td dj : Option ℝ) : Option ℝ :=
  match td, dj with
  | some t, some d => if (1e-6 : ℝ) < t then some (d / t * 3.6) else none
  | _, _ => none

/-- The anomaly predicate of `filter_invalid_moves`:
`(Speed_kmh > max_speed_kmh).fillna(False)` — `NaN` speed is not anomalous. -/
noncomputable def isAnomalous (m : ℝ) (r : Row) : Bool :=
  match r.speed_kmh with
  | some s => decide (m < s)
  | none => false

/-- `filter_invalid_moves` (Anomaly Filter), lines 93–106, keeps the rows that
are not anomalous, in order.  (The source's default threshold is 150; the
rows here always carry a `Speed_kmh` column, so the missing-column early
return of line 95 does not arise.) -/
noncomputable def filter_invalid_moves (df : List Row) (m : ℝ) : List Row :=
  df.filter (fun r => !isAnomalous m r)

/-- Modelled from the spec's wording of the retention rule (for the refinement
claim C2): a point is retained exactly when its `speed_kmh` is null or at most
the threshold; only the `speed_kmh` field is consulted. -/
noncomputable def keepSpec (m : ℝ) (s : Option ℝ) : Bool :=
  match s with
  | some v => decide (v ≤ m)
  | none => true

/-- `len(x)` of a `TaxiID` group: the number of rows of `df` carrying the
given id. -/
def eligCount (df : List Row) (k : Int) : Nat := df.countP (fun s => s.taxiID == k)

/-- Line 118: `grouped.filter(lambda x: len(x) >= 2)` — rows whose vehicle has
at least two points, kept in original order. -/
def processedRows (df : List Row) : List Row :=
  df.filter (fun r => decide (2 ≤ eligCount df r.taxiID))

/-- pandas `Series.unique()`: distinct values in first-appearance order
(each kept value screens later duplicates out of the recursive result). -/
def uniqueFirst : List Int → List Int
  | [] => []
  | x :: xs => x :: (uniqueFirst xs).filter (fun y => y != x)

/-- `DateTime`-only comparison for `sort_values('DateTime')`. -/
def timeRowLe (a b : Row) : Prop := timeLE a.dateTime b.dateTime = true

instance : DecidableRel timeRowLe := fun a b => by unfold timeRowLe; infer_instance

/-- Line 122's per-group `sort_values('DateTime')`. -/
def sortByTime (l : List Row) : List Row := List.insertionSort timeRowLe l

/-- The group keys of `groupby('TaxiID')` in the order the groups are
processed: distinct ids, ascending (`sort=True` is the pandas default). -/
def sortedIds (df : List Row) : List Int :=
  List.insertionSort (· ≤ ·) (uniqueFirst ((processedRows df).map (fun r => r.taxiID)))

/-- The rows of one vehicle's group, time-sorted (line 121–122). -/
def groupOf (df : List Row) (k : Int) : List Row :=
  sortByTime ((processedRows df).filter (fun r => r.taxiID == k))

/-- Whether a vehicle's rows are already in non-decreasing `DateTime` order
(`NaT` last), i.e. `sort_values('DateTime')` returns them with an unchanged
index. -/
def timeSortedB : List Row → Bool
  | [] => true
  | [_] => true
  | a :: b :: t => timeLE a.dateTime b.dateTime && timeSortedB (b :: t)

/-- Whether every group's rows are already time-ordered, in which case the
result of each `apply` call is indexed like its input group.  pandas'
`GroupBy.apply` records this (`mutated` flag / transform detection). -/
def allGroupsSorted (df : List Row) : Bool :=
  (sortedIds df).all (fun k => timeSortedB ((processedRows df).filter (fun r => r.taxiID == k)))

/-- Lines 121–123: `groupby('TaxiID', group_keys=False).apply(sort_values('DateTime'))`.
pandas dispatches on transform detection: when every group comes back indexed
like its input (every group already time-sorted), the concatenated result is
reindexed to the original frame order; otherwise the time-sorted groups are
concatenated in ascending-id order. -/
def processedSorted (df : List Row) : List Row :=
  if allGroupsSorted df = true then processedRows df
  else (sortedIds df).flatMap (groupOf df)

/-- The `[Latitude, Longitude]` coordinate rows of one vehicle, in frame
order (line 126–127's `x.values`). -/
def trajOf (l : List Row) (k : Int) : List (Option ℝ × Option ℝ) :=
  (l.filter (fun r => r.taxiID == k)).map (fun r => (r.latitude, r.longitude))

/-- `preprocess_data` (Trajectory Builder), lines 111–129: returns
`(traj_data, processed_df, traj_ids)`. -/
def preprocess_data (df : List Row) :
    List (List (Option ℝ × Option ℝ)) × List Row × List Int :=
  let ps := processedSorted df
  ((List.insertionSort (· ≤ ·) (uniqueFirst (ps.map (fun r => r.taxiID)))).map (trajOf ps),
    ps,
    uniqueFirst (ps.map (fun r => r.taxiID)))

/-- All three derived columns of a row are null. -/
def allNull3 (r : Row) : Prop :=
  r.timeDiff_s = none ∧ r.distJump_m = none ∧ r.speed_kmh = none

/-- Scanning a row list with the previous row's id: every row opening a new
`TaxiID` group has all derived columns null. -/
def groupNullsFrom (pid : Int) : List Row → Prop
  | [] => True
  | r :: rest => (if pid = r.taxiID then True else allNull3 r) ∧ groupNullsFrom r.taxiID rest

/-- The first row of every `TaxiID` group has all derived columns null. -/
def firstsNull : List Row → Prop
  | [] => True
  | r :: rest => allNull3 r ∧ groupNullsFrom r.taxiID rest

/-- A concrete row with the given id and timestamp and no coordinates. -/
def mkRow (id : Int) (t : ℚ) : Row :=
  { taxiID := id, dateTime := some t, latitude := none, longitude := none,
    timeDiff_s := none, distJump_m := none, speed_kmh := none }

/-- A concrete row with the given id, timestamp and latitude. -/
def mkRowL (id : Int) (t : ℚ) (la : ℝ) : Row :=
  { taxiID := id, dateTime := some t, latitude := some la, longitude := none,
    timeDiff_s := none, distJump_m := none, speed_kmh := none }

/-- A concrete input in which vehicle 5 appears before vehicle 3 (both with
two points, each vehicle's points already time-ordered, distinguishable
latitudes). -/
def exDf : List Row := [mkRowL 5 0 50, mkRowL 5 1 50, mkRowL 3 0 30, mkRowL 3 1 30]

/-- A concrete input in which vehicle 5 appears before vehicle 3 and vehicle
5's two points are out of time order. -/
def exDf2 : List Row := [mkRow 5 1, mkRow 5 0, mkRow 3 0, mkRow 3 1]

/-- Half-angle identity used to bound the haversine intermediate. -/
lemma sin_half_sq (x : ℝ) : Real.sin (x / 2) ^ 2 = (1 - Real.cos x) / 2 := by
  have h2 : Real.cos (2 * (x / 2)) = 2 * Real.cos (x / 2) ^ 2 - 1 := Real.cos_two_mul _
  have h1 : Real.sin (x / 2) ^ 2 + Real.cos (x / 2) ^ 2 = 1 := Real.sin_sq_add_cos_sq _
  have hx : 2 * (x / 2) = x := by ring
  rw [hx] at h2
  linarith

/-- The central-angle cosine `sin A * sin B + cos A * cos B * cos d` lies in
`[-1, 1]` for all real `A`, `B`, `d`. -/
lemma central_cos_bounds (A B d : ℝ) :
    -1 ≤ Real.sin A * Real.sin B + Real.cos A * Real.cos B * Real.cos d ∧
      Real.sin A * Real.sin B + Real.cos A * Real.cos B * Real.cos d ≤ 1 := by
  have hA := Real.sin_sq_add_cos_sq A
  have hB := Real.sin_sq_add_cos_sq B
  have hd1 : Real.cos d ≤ 1 := Real.cos_le_one d
  have hd2 : -1 ≤ Real.cos d := Real.neg_one_le_cos d
  rcases le_total 0 (Real.cos A * Real.cos B) with hc | hc
  · constructor
    · nlinarith [sq_nonneg (Real.sin A + Real.sin B), sq_nonneg (Real.cos A - Real.cos B),
        mul_nonneg hc (by linarith : (0:ℝ) ≤ 1 + Real.cos d)]
    · nlinarith [sq_nonneg (Real.sin A - Real.sin B), sq_nonneg (Real.cos A - Real.cos B),
        mul_nonneg hc (by linarith : (0:ℝ) ≤ 1 - Real.cos d)]
  · constructor
    · nlinarith [sq_nonneg (Real.sin A + Real.sin B), sq_nonneg (Real.cos A + Real.cos B),
        mul_nonneg (by linarith : (0:ℝ) ≤ -(Real.cos A * Real.cos B))
          (by linarith : (0:ℝ) ≤ 1 - Real.cos d)]
    · nlinarith [sq_nonneg (Real.sin A - Real.sin B), sq_nonneg (Real.cos A + Real.cos B),
        mul_nonneg (by linarith : (0:ℝ) ≤ -(Real.cos A * Real.cos B))
          (by linarith : (0:ℝ) ≤ 1 + Real.cos d)]

/-- The haversine intermediate equals `(1 - centralCos)/2`. -/
lemma hav_a_eq (lon1 lat1 lon2 lat2 : ℝ) :
    hav_a lon1 lat1 lon2 lat2 =
      (1 - (Real.sin (degToRad lat1) * Real.sin (degToRad lat2) +
        Real.cos (degToRad lat1) * Real.cos (degToRad lat2) *
          Real.cos (degToRad lon2 - degToRad lon1))) / 2 := by
  unfold hav_a
  rw [sin_half_sq, sin_half_sq, Real.cos_sub]
  ring

/-- `hav_a` is within `[0, 1]` for all real inputs. -/
lemma hav_a_bounds (lon1 lat1 lon2 lat2 : ℝ) :
    0 ≤ hav_a lon1 lat1 lon2 lat2 ∧ hav_a lon1 lat1 lon2 lat2 ≤ 1 := by
  obtain ⟨h1, h2⟩ := central_cos_bounds (degToRad lat1) (degToRad lat2)
    (degToRad lon2 - degToRad lon1)
  rw [hav_a_eq]
  constructor <;> linarith

/-- C7: the Distance Function returns `none` when any of the four inputs is
missing (it is a total function of its inputs, with no side effects), and on
four real inputs it returns `2·asin(√a)·6371000` meters with
`a = sin²(Δlat/2) + cos(lat1)·cos(lat2)·sin²(Δlon/2)` on degree inputs
converted to radians. -/
theorem haversine_null_and_formula :
    (∀ lon1 lat1 lon2 lat2 : Option ℝ,
        lon1 = none ∨ lat1 = none ∨ lon2 = none ∨ lat2 = none →
        haversine lon1 lat1 lon2 lat2 = none) ∧
    (∀ lon1 lat1 lon2 lat2 : ℝ,
        haversine (some lon1) (some lat1) (some lon2) (some lat2) =
          some (2 * Real.arcsin (Real.sqrt
            (Real.sin ((lat2 * (Real.pi / 180) - lat1 * (Real.pi / 180)) / 2) ^ 2 +
              Real.cos (lat1 * (Real.pi / 180)) * Real.cos (lat2 * (Real.pi / 180)) *
                Real.sin ((lon2 * (Real.pi / 180) - lon1 * (Real.pi / 180)) / 2) ^ 2)) *
            6371000)) := by
  constructor
  · intro lon1 lat1 lon2 lat2 h
    cases lon1 <;> cases lat1 <;> cases lon2 <;> cases lat2 <;>
      simp [haversine] at h ⊢
  · intro lon1 lat1 lon2 lat2
    simp only [haversine, hav_a, degToRad, EARTH_RADIUS_KM]
    congr 1
    ring

/-- Witness for C7 at a concrete input: a missing first coordinate yields
`none`. -/
theorem haversine_null_and_formula_witness :
    haversine none (some 0) (some 0) (some 0) = none :=
  haversine_null_and_formula.1 none (some 0) (some 0) (some 0) (Or.inl rfl)

/-- C8: the Distance Function gives exactly `0` from any point to itself, and
is symmetric in its two points (exactly, not merely within floating-point
tolerance). -/
theorem haversine_self_and_symm :
    (∀ lon lat : ℝ, haversine (some lon) (some lat) (some lon) (some lat) = some 0) ∧
    (∀ lon1 lat1 lon2 lat2 : ℝ,
        haversine (some lon1) (some lat1) (some lon2) (some lat2) =
          haversine (some lon2) (some lat2) (some lon1) (some lat1)) := by
  have hsin : ∀ x y : ℝ, Real.sin ((x - y) / 2) ^ 2 = Real.sin ((y - x) / 2) ^ 2 := by
    intro x y
    have e : (x - y) / 2 = -((y - x) / 2) := by ring
    rw [e, Real.sin_neg]
    ring
  constructor
  · intro lon lat
    simp [haversine, hav_a, sub_self, Real.sin_zero, Real.sqrt_zero, Real.arcsin_zero]
  · intro lon1 lat1 lon2 lat2
    simp only [haversine]
    have ha : hav_a lon1 lat1 lon2 lat2 = hav_a lon2 lat2 lon1 lat1 := by
      unfold hav_a
      rw [hsin (degToRad lat2) (degToRad lat1), hsin (degToRad lon2) (degToRad lon1),
        mul_comm (Real.cos (degToRad lat1)) (Real.cos (degToRad lat2))]
    rw [ha]

/-- C10: for all real inputs the haversine intermediate `a` lies in `[0, 1]`
(so `√a` and `asin(√a)` are within their domains and the function is total),
and the returned distance is non-negative. -/
theorem haversine_total_and_nonneg :
    ∀ lon1 lat1 lon2 lat2 : ℝ,
      0 ≤ hav_a lon1 lat1 lon2 lat2 ∧ hav_a lon1 lat1 lon2 lat2 ≤ 1 ∧
      haversine (some lon1) (some lat1) (some lon2) (some lat2) =
        some (2 * Real.arcsin (Real.sqrt (hav_a lon1 lat1 lon2 lat2)) *
          EARTH_RADIUS_KM * 1000) ∧
      0 ≤ 2 * Real.arcsin (Real.sqrt (hav_a lon1 lat1 lon2 lat2)) *
        EARTH_RADIUS_KM * 1000 := by
  intro lon1 lat1 lon2 lat2
  obtain ⟨h0, h1⟩ := hav_a_bounds lon1 lat1 lon2 lat2
  refine ⟨h0, h1, rfl, ?_⟩
  have harc : 0 ≤ Real.arcsin (Real.sqrt (hav_a lon1 lat1 lon2 lat2)) :=
    Real.arcsin_nonneg.mpr (Real.sqrt_nonneg _)
  have hR : (0:ℝ) ≤ EARTH_RADIUS_KM := by norm_num [EARTH_RADIUS_KM]
  have h2 : 0 ≤ 2 * Real.arcsin (Real.sqrt (hav_a lon1 lat1 lon2 lat2)) := by linarith
  exact mul_nonneg (mul_nonneg h2 hR) (by norm_num)

/-- `timeLE` is reflexive. -/
lemma timeLE_refl (x : Option ℚ) : timeLE x x = true := by
  cases x <;> simp [timeLE]

/-- Rows with equal `(TaxiID, DateTime)` keys compare `rowLe` both ways. -/
lemma rowLe_of_key_eq {a b : Row} (h : keyOf a = keyOf b) : rowLe a b := by
  have h1 : a.toBase.taxiID = b.toBase.taxiID := congrArg Prod.fst h
  have h2 : a.toBase.dateTime = b.toBase.dateTime := congrArg Prod.snd h
  unfold rowLe baseLe
  simp only [Bool.or_eq_true, Bool.and_eq_true, decide_eq_true_eq, beq_iff_eq]
  exact Or.inr ⟨h1, by rw [h2]; exact timeLE_refl _⟩

/-- Inserting a row keeps the sublist of any fixed key class intact: the new
row lands in front of its own key class and past no member of it. -/
lemma filter_orderedInsert_key (a : Row) (l : List Row) (k : Int × Option ℚ) :
    (List.orderedInsert rowLe a l).filter (fun r => decide (keyOf r = k)) =
      if keyOf a = k then a :: l.filter (fun r => decide (keyOf r = k))
      else l.filter (fun r => decide (keyOf r = k)) := by
  induction l with
  | nil =>
      simp only [List.orderedInsert]
      by_cases hka : keyOf a = k <;> simp [List.filter, hka]
  | cons b t ih =>
      by_cases hab : rowLe a b
      · simp only [List.orderedInsert, if_pos hab]
        by_cases hka : keyOf a = k <;> simp [List.filter_cons, hka]
      · simp only [List.orderedInsert, if_neg hab]
        by_cases hka : keyOf a = k
        · have hkb : ¬ keyOf b = k := fun hkb => hab (rowLe_of_key_eq (hka.trans hkb.symm))
          simp [List.filter_cons, hka, hkb, ih]
        · simp [List.filter_cons, hka, ih]

/-- Stability of the lexicographic sort: each `(TaxiID, DateTime)` key class
of the output is the key class of the input, in the same order. -/
lemma filter_insertionSort_key (l : List Row) (k : Int × Option ℚ) :
    (List.insertionSort rowLe l).filter (fun r => decide (keyOf r = k)) =
      l.filter (fun r => decide (keyOf r = k)) := by
  induction l with
  | nil => rfl
  | cons a t ih =>
      simp only [List.insertionSort]
      rw [filter_orderedInsert_key]
      by_cases hka : keyOf a = k <;> simp [List.filter_cons, hka, ih]

/-- A derived row keeps the base columns of its input. -/
lemma deriveRow_toBase (p : Option Base) (b : Base) : (deriveRow p b).toBase = b := rfl

/-- A derived row keeps its `TaxiID`. -/
lemma deriveRow_taxiID (p : Option Base) (b : Base) : (deriveRow p b).taxiID = b.taxiID := rfl

/-- The grouped scan rewrites only derived columns: base columns are kept,
pointwise and in order. -/
lemma addFeatures_map_toBase (p : Option Base) (l : List Row) :
    (addFeatures p l).map Row.toBase = l.map Row.toBase := by
  induction l generalizing p with
  | nil => rfl
  | cons r rest ih =>
      show (deriveRow _ r.toBase).toBase :: (addFeatures (some r.toBase) rest).map Row.toBase =
        r.toBase :: rest.map Row.toBase
      rw [ih]
      rfl

/-- The grouped scan only reads base columns of its input rows. -/
lemma addFeatures_congr_base (p : Option Base) :
    ∀ l1 l2 : List Row, l1.map Row.toBase = l2.map Row.toBase →
      addFeatures p l1 = addFeatures p l2 := by
  intro l1
  induction l1 generalizing p with
  | nil =>
      intro l2 h
      have : l2 = [] := by
        cases l2 with
        | nil => rfl
        | cons x xs => simp at h
      rw [this]
  | cons r t ih =>
      intro l2 h
      cases l2 with
      | nil => simp at h
      | cons r2 t2 =>
          simp only [List.map_cons, List.cons.injEq] at h
          obtain ⟨hb, ht⟩ := h
          show (deriveRow (match p with
              | some q => if q.taxiID = r.toBase.taxiID then some q else none
              | none => none) r.toBase) :: addFeatures (some r.toBase) t =
            (deriveRow (match p with
              | some q => if q.taxiID = r2.toBase.taxiID then some q else none
              | none => none) r2.toBase) :: addFeatures (some r2.toBase) t2
          rw [hb, ih (some r2.toBase) t2 ht]

/-- The first three derived columns of a group-opening row are all null. -/
lemma deriveRow_none_fields (b : Base) : allNull3 (deriveRow none b) := ⟨rfl, rfl, rfl⟩

/-- Scanning with a known previous row: every row that opens a new `TaxiID`
group gets all derived columns null. -/
lemma groupNullsFrom_addFeatures (l : List Row) (q : Base) :
    groupNullsFrom q.taxiID (addFeatures (some q) l) := by
  induction l generalizing q with
  | nil => trivial
  | cons r rest ih =>
      show groupNullsFrom q.taxiID
        (deriveRow (if q.taxiID = r.toBase.taxiID then some q else none) r.toBase ::
          addFeatures (some r.toBase) rest)
      refine ⟨?_, ih r.toBase⟩
      by_cases h : q.taxiID = r.toBase.taxiID
      · simp only [deriveRow_taxiID]
        exact if_pos h ▸ trivial
      · simp only [deriveRow_taxiID, if_neg h]
        exact deriveRow_none_fields r.toBase

/-- The output of the scan started with no previous row satisfies
`firstsNull`. -/
lemma firstsNull_addFeatures (l : List Row) : firstsNull (addFeatures none l) := by
  cases l with
  | nil => trivial
  | cons r rest =>
      show firstsNull (deriveRow none r.toBase :: addFeatures (some r.toBase) rest)
      exact ⟨deriveRow_none_fields r.toBase, groupNullsFrom_addFeatures rest r.toBase⟩

/-- The Feature Deriver's output is sorted by `(TaxiID, DateTime)`. -/
lemma sorted_features (df : List Row) :
    List.Sorted rowLe (addFeatures none (sortRows df)) := by
  have hs : List.Sorted rowLe (sortRows df) := List.sorted_insertionSort rowLe df
  have hmap := addFeatures_map_toBase none (sortRows df)
  have h1 : ((sortRows df).map Row.toBase).Pairwise (fun x y => baseLe x y = true) :=
    List.pairwise_map.mpr hs
  rw [← hmap] at h1
  have h2 : (addFeatures none (sortRows df)).Pairwise
      (fun a b => baseLe a.toBase b.toBase = true) := List.pairwise_map.mp h1
  exact h2

/-- Each derived row's `Speed_kmh` matches the spec's speed rule as a function
of its own `TimeDiff_s` and `DistJump_m`. -/
lemma deriveRow_speed (p : Option Base) (b : Base) :
    (deriveRow p b).speed_kmh = speedSpec (deriveRow p b).timeDiff_s (deriveRow p b).distJump_m := by
  cases p with
  | none => rfl
  | some q =>
      cases hqt : q.dateTime with
      | none => simp [deriveRow, speedSpec, hqt]
      | some t0 =>
          cases hbt : b.dateTime with
          | none => simp [deriveRow, speedSpec, hqt, hbt]
          | some t1 =>
              cases hlat : q.latitude with
              | none => simp [deriveRow, speedSpec, hqt, hbt, hlat]
              | some la =>
                  cases hdj : haversine q.longitude (some la) b.longitude b.latitude with
                  | none => simp [deriveRow, speedSpec, hqt, hbt, hlat, hdj]
                  | some d =>
                      have hiff : ((1:ℚ)/1000000 < t1 - t0) ↔ ((1e-6 : ℝ) < (t1 : ℝ) - (t0 : ℝ)) := by
                        rw [show ((1e-6 : ℝ) = ((1/1000000 : ℚ) : ℝ)) by norm_num,
                          show ((t1 : ℝ) - (t0 : ℝ) = ((t1 - t0 : ℚ) : ℝ)) by push_cast; ring]
                        exact Rat.cast_lt.symm
                      by_cases hc : (1:ℚ)/1000000 < t1 - t0
                      · have hcr : (1e-6 : ℝ) < (t1 : ℝ) - (t0 : ℝ) := hiff.mp hc
                        simp [deriveRow, speedSpec, hqt, hbt, hlat, hdj, hc, hcr]
                        linarith
                      · have hcr : ¬ (1e-6 : ℝ) < (t1 : ℝ) - (t0 : ℝ) := fun h => hc (hiff.mpr h)
                        simp [deriveRow, speedSpec, hqt, hbt, hlat, hdj, hc, hcr]
                        linarith [not_lt.mp hc]

/-- Every row of the scan's output is a `deriveRow` result. -/
lemma mem_addFeatures (p : Option Base) (l : List Row) (r : Row) :
    r ∈ addFeatures p l → ∃ q b, r = deriveRow q b := by
  induction l generalizing p with
  | nil => intro h; simp [addFeatures] at h
  | cons x rest ih =>
      intro h
      simp only [addFeatures, List.mem_cons] at h
      rcases h with h | h
      · exact ⟨_, _, h⟩
      · exact ih _ h

/-- The retained/removed decision of the Anomaly Filter coincides with the
spec's speed-only rule. -/
lemma keep_iff (m : ℝ) (r : Row) : (!isAnomalous m r) = keepSpec m r.speed_kmh := by
  cases h : r.speed_kmh with
  | none => simp [isAnomalous, keepSpec, h]
  | some s =>
      simp only [isAnomalous, keepSpec, h]
      rw [← decide_not]
      exact decide_eq_decide.mpr not_lt

/-- C4: the Feature Deriver's sort step (line 74) sorts by vehicle then
timestamp, is a permutation of its input, and is stable: the rows of any fixed
`(TaxiID, DateTime)` key — in particular any two points of one vehicle with
equal timestamps — appear in the output in their input order; the Feature
Deriver's output carries exactly these base columns in this order. -/
theorem sort_step_stable (df : List Row) :
    List.Sorted rowLe (sortRows df) ∧ (sortRows df).Perm df ∧
    (∀ k : Int × Option ℚ,
        (sortRows df).filter (fun r => decide (keyOf r = k)) =
          df.filter (fun r => decide (keyOf r = k))) ∧
    (calculate_trajectory_features df).map Row.toBase = (sortRows df).map Row.toBase :=
  ⟨List.sorted_insertionSort rowLe df, List.perm_insertionSort rowLe df,
    fun k => filter_insertionSort_key df k, addFeatures_map_toBase none (sortRows df)⟩

/-- C3: every derived point's `Speed_kmh` is `(DistJump_m / TimeDiff_s) * 3.6`
when `TimeDiff_s > 1e-6` and `DistJump_m` is non-null, and is null otherwise
(in particular whenever `TimeDiff_s` is null or `≤ 1e-6`). -/
theorem features_speed_formula (df : List Row) (r : Row)
    (hr : r ∈ calculate_trajectory_features df) :
    r.speed_kmh = speedSpec r.timeDiff_s r.distJump_m := by
  obtain ⟨q, b, rfl⟩ := mem_addFeatures none (sortRows df) r hr
  exact deriveRow_speed q b

/-- Witness for C3 at a concrete one-row input. -/
theorem features_speed_formula_witness :
    (deriveRow none { taxiID := 1, dateTime := some 0, latitude := none, longitude := none }).speed_kmh =
      speedSpec
        (deriveRow none { taxiID := 1, dateTime := some 0, latitude := none, longitude := none }).timeDiff_s
        (deriveRow none { taxiID := 1, dateTime := some 0, latitude := none, longitude := none }).distJump_m :=
  features_speed_formula
    [{ toBase := { taxiID := 1, dateTime := some 0, latitude := none, longitude := none },
       timeDiff_s := none, distJump_m := none, speed_kmh := none }]
    (deriveRow none { taxiID := 1, dateTime := some 0, latitude := none, longitude := none })
    (by exact List.mem_singleton.mpr rfl)

/-- C6: the Feature Deriver drops no points — its output carries exactly the
input points' base columns, in vehicle-then-time sorted order — and the first
point of every vehicle group has `TimeDiff_s`, `DistJump_m` and `Speed_kmh`
all null. -/
theorem features_preserve_and_group_nulls (df : List Row) :
    ((calculate_trajectory_features df).map Row.toBase).Perm (df.map Row.toBase) ∧
    List.Sorted rowLe (calculate_trajectory_features df) ∧
    firstsNull (calculate_trajectory_features df) := by
  refine ⟨?_, sorted_features df, firstsNull_addFeatures (sortRows df)⟩
  have hmap := addFeatures_map_toBase none (sortRows df)
  unfold calculate_trajectory_features
  rw [hmap]
  exact (List.perm_insertionSort rowLe df).map Row.toBase

/-- C9: the Feature Deriver is idempotent — re-running it on its own output
(recomputing the derived columns from the base columns) returns the very same
list of rows. -/
theorem features_idempotent (df : List Row) :
    calculate_trajectory_features (calculate_trajectory_features df) =
      calculate_trajectory_features df := by
  unfold calculate_trajectory_features
  have h1 : sortRows (addFeatures none (sortRows df)) = addFeatures none (sortRows df) := by
    unfold sortRows
    exact List.Sorted.insertionSort_eq (sorted_features df)
  rw [h1]
  exact addFeatures_congr_base none _ _ (addFeatures_map_toBase none (sortRows df))

/-- C2: the Anomaly Filter removes exactly the rows whose `Speed_kmh` is
non-null and strictly above the threshold: its output is the in-order
sublist of rows retained by the speed-only rule `keepSpec` (null speed always
retained, no other field consulted). -/
theorem filter_speed_only (df : List Row) (m : ℝ) :
    filter_invalid_moves df m = df.filter (fun r => keepSpec m r.speed_kmh) ∧
    (filter_invalid_moves df m).Sublist df := by
  constructor
  · unfold filter_invalid_moves
    exact List.filter_congr (fun r h => keep_iff m r)
  · exact List.filter_sublist _

/-- `uniqueFirst` keeps exactly the values of its input. -/
lemma mem_uniqueFirst (l : List Int) (x : Int) : x ∈ uniqueFirst l ↔ x ∈ l := by
  induction l with
  | nil => simp [uniqueFirst]
  | cons a t ih =>
      by_cases hx : x = a
      · subst hx; simp [uniqueFirst]
      · simp [uniqueFirst, List.mem_filter, ih, hx, bne_iff_ne]

/-- `uniqueFirst` has no duplicates. -/
lemma nodup_uniqueFirst (l : List Int) : (uniqueFirst l).Nodup := by
  induction l with
  | nil => simp [uniqueFirst]
  | cons a t ih =>
      simp only [uniqueFirst]
      refine List.nodup_cons.mpr ⟨?_, List.Nodup.filter _ ih⟩
      intro hmem
      rcases List.mem_filter.mp hmem with ⟨_, hbne⟩
      simp at hbne

/-- A leading block of equal values is screened out by the filter
`uniqueFirst` applies for that value. -/
lemma uniqueFirst_filter_block (k : Int) (t rest : List Int) (ht : ∀ y ∈ t, y = k) :
    (uniqueFirst (t ++ rest)).filter (fun y => y != k) =
      (uniqueFirst rest).filter (fun y => y != k) := by
  induction t with
  | nil => rfl
  | cons y t2 ih =>
      have hy : y = k := ht y (List.mem_cons_self y t2)
      subst hy
      simp only [List.cons_append, uniqueFirst, List.filter_cons, bne_self_eq_false,
        Bool.false_eq_true, if_false]
      rw [List.filter_filter]
      have hfun : (fun a => (a != y) && (a != y)) = (fun a : Int => a != y) := by
        funext a
        exact Bool.and_self _
      rw [hfun]
      exact ih (fun z hz => ht z (List.mem_cons_of_mem _ hz))

/-- `uniqueFirst` over a concatenation of non-empty constant blocks with
pairwise-distinct values returns the block values in order. -/
lemma uniqueFirst_flatMap : ∀ (ids : List Int) (g : Int → List Int), ids.Nodup →
    (∀ k ∈ ids, g k ≠ []) → (∀ k ∈ ids, ∀ x ∈ g k, x = k) →
    uniqueFirst (ids.flatMap g) = ids := by
  intro ids
  induction ids with
  | nil => intro g _ _ _; rfl
  | cons k ks ih =>
      intro g hnd hne hval
      rcases List.nodup_cons.mp hnd with ⟨hk_not, hnd2⟩
      simp only [List.flatMap_cons]
      cases hgk : g k with
      | nil => exact absurd hgk (hne k (List.mem_cons_self _ _))
      | cons y t =>
          have hy : y = k := hval k (List.mem_cons_self _ _) y (hgk ▸ List.mem_cons_self _ _)
          subst hy
          simp only [List.cons_append, uniqueFirst, List.append_eq]
          congr 1
          rw [uniqueFirst_filter_block y t _
            (fun z hz => hval y (List.mem_cons_self _ _) z (by rw [hgk]; exact List.mem_cons_of_mem _ hz))]
          rw [ih g hnd2 (fun j hj => hne j (List.mem_cons_of_mem _ hj))
            (fun j hj => hval j (List.mem_cons_of_mem _ hj))]
          apply List.filter_eq_self.mpr
          intro j hj
          simp only [bne_iff_ne, ne_eq, decide_eq_true_eq]
          exact fun hjk => hk_not (hjk ▸ hj)

/-- Congruence for `flatMap` under a pointwise-equal function. -/
lemma flatMap_congr_mem {α β : Type} (l : List α) (f g : α → List β)
    (h : ∀ a ∈ l, f a = g a) : l.flatMap f = l.flatMap g := by
  induction l with
  | nil => rfl
  | cons a t ih =>
      simp only [List.flatMap_cons]
      rw [h a (List.mem_cons_self _ _), ih (fun b hb => h b (List.mem_cons_of_mem _ hb))]

/-- Filtering a concatenation of per-id groups for one id of the list returns
exactly that id's group. -/
lemma flatMap_filter_group : ∀ (ids : List Int) (g : Int → List Row) (k : Int), ids.Nodup →
    k ∈ ids → (∀ j ∈ ids, ∀ r ∈ g j, r.taxiID = j) →
    (ids.flatMap g).filter (fun r => r.taxiID == k) = g k := by
  intro ids
  induction ids with
  | nil => intro g k _ hk _; cases hk
  | cons j js ih =>
      intro g k hnd hk hval
      rcases List.nodup_cons.mp hnd with ⟨hj_not, hnd2⟩
      simp only [List.flatMap_cons, List.filter_append]
      by_cases hjk : j = k
      · subst hjk
        have h1 : (g j).filter (fun r => r.taxiID == j) = g j :=
          List.filter_eq_self.mpr (fun r hr => by
            simp [hval j (List.mem_cons_self _ _) r hr])
        have h2 : (js.flatMap g).filter (fun r => r.taxiID == j) = [] := by
          rw [List.filter_eq_nil_iff]
          intro r hr
          rcases List.mem_flatMap.mp hr with ⟨i, hi, hri⟩
          have hrid : r.taxiID = i := hval i (List.mem_cons_of_mem _ hi) r hri
          simp only [hrid, beq_iff_eq]
          exact fun h => hj_not (h ▸ hi)
        rw [h1, h2, List.append_nil]
      · have h1 : (g j).filter (fun r => r.taxiID == k) = [] := by
          rw [List.filter_eq_nil_iff]
          intro r hr
          have hrid : r.taxiID = j := hval j (List.mem_cons_self _ _) r hr
          simp only [hrid, beq_iff_eq]
          exact hjk
        rw [h1, List.nil_append]
        exact ih g k hnd2 ((List.mem_cons.mp hk).resolve_left (fun h => hjk h.symm))
          (fun i hi => hval i (List.mem_cons_of_mem _ hi))

/-- Concatenating the per-id time-sorted groups over the distinct covering ids
permutes the original rows. -/
lemma flatMap_groups_perm : ∀ (ids : List Int) (l : List Row), ids.Nodup →
    (∀ r ∈ l, r.taxiID ∈ ids) →
    ((ids.flatMap (fun k => sortByTime (l.filter (fun r => r.taxiID == k)))).Perm l) := by
  intro ids
  induction ids with
  | nil =>
      intro l _ hcov
      have hl : l = [] := by
        cases l with
        | nil => rfl
        | cons r t => exact absurd (hcov r (List.mem_cons_self _ _)) (List.not_mem_nil _)
      simp [hl]
  | cons k ks ih =>
      intro l hnd hcov
      rcases List.nodup_cons.mp hnd with ⟨hk_not, hnd2⟩
      simp only [List.flatMap_cons]
      have hsort : (sortByTime (l.filter (fun r => r.taxiID == k))).Perm
          (l.filter (fun r => r.taxiID == k)) := List.perm_insertionSort _ _
      have hcong : ks.flatMap (fun j => sortByTime (l.filter (fun r => r.taxiID == j))) =
          ks.flatMap (fun j => sortByTime
            ((l.filter (fun r => !(r.taxiID == k))).filter (fun r => r.taxiID == j))) := by
        apply flatMap_congr_mem
        intro j hj
        congr 1
        rw [List.filter_filter]
        refine (List.filter_congr (fun r hr => ?_)).symm
        by_cases hrj : r.taxiID = j
        · have hjk : j ≠ k := fun h => hk_not (h ▸ hj)
          simp [hrj, hjk]
        · simp [hrj]
      rw [hcong]
      have ihp := ih (l.filter (fun r => !(r.taxiID == k))) hnd2 (fun r hr => by
        rcases List.mem_filter.mp hr with ⟨hrl, hrk⟩
        have hne : r.taxiID ≠ k := by simpa using hrk
        rcases List.mem_cons.mp (hcov r hrl) with h | h
        · exact absurd h hne
        · exact h)
      exact (hsort.append ihp).trans (List.filter_append_perm _ l)

/-- Membership in the group-key list. -/
lemma mem_sortedIds (df : List Row) (k : Int) :
    k ∈ sortedIds df ↔ ∃ r, r ∈ processedRows df ∧ r.taxiID = k := by
  unfold sortedIds
  rw [List.mem_insertionSort, mem_uniqueFirst, List.mem_map]

/-- A group key of the Trajectory Builder has at least two points in the
length-filtered frame. -/
lemma elig_of_mem_sortedIds (df : List Row) (k : Int) (hk : k ∈ sortedIds df) :
    2 ≤ eligCount df k := by
  rcases (mem_sortedIds df k).mp hk with ⟨r, hr, hrk⟩
  rcases List.mem_filter.mp hr with ⟨_, helig⟩
  have h2 : (2:Nat) ≤ eligCount df r.taxiID := of_decide_eq_true helig
  rwa [hrk] at h2

/-- For an id whose vehicle count is at least 2, the length filter keeps all
of that vehicle's rows. -/
lemma processedRows_filter_id (df : List Row) (k : Int) (h2 : 2 ≤ eligCount df k) :
    (processedRows df).filter (fun r => r.taxiID == k) = df.filter (fun r => r.taxiID == k) := by
  unfold processedRows
  rw [List.filter_filter]
  refine List.filter_congr (fun r hr => ?_)
  by_cases hid : r.taxiID = k
  · simp [hid, h2]
  · simp [hid]

/-- Every group emitted by the Trajectory Builder keeps at least two rows. -/
lemma groupOf_length (df : List Row) (k : Int) (hk : k ∈ sortedIds df) :
    2 ≤ (groupOf df k).length := by
  unfold groupOf sortByTime
  rw [List.length_insertionSort]
  rw [processedRows_filter_id df k (elig_of_mem_sortedIds df k hk)]
  rw [← List.countP_eq_length_filter]
  exact elig_of_mem_sortedIds df k hk

/-- Rows of a group carry that group's id. -/
lemma mem_groupOf_id (df : List Row) (k : Int) (r : Row) (hr : r ∈ groupOf df k) :
    r.taxiID = k := by
  unfold groupOf sortByTime at hr
  rw [List.mem_insertionSort] at hr
  rcases List.mem_filter.mp hr with ⟨_, hbeq⟩
  exact beq_iff_eq.mp hbeq

/-- Groups of emitted ids are non-empty (they even have two rows). -/
lemma groupOf_ne_nil (df : List Row) (k : Int) (hk : k ∈ sortedIds df) :
    (groupOf df k).map (fun r => r.taxiID) ≠ [] := by
  have h2 := groupOf_length df k hk
  intro h
  have h0 : (groupOf df k).length = 0 := by simpa using congrArg List.length h
  omega

/-- The group keys are pairwise distinct. -/
lemma sortedIds_nodup (df : List Row) : (sortedIds df).Nodup :=
  ((List.perm_insertionSort _ _).symm).nodup (nodup_uniqueFirst _)

/-- The group keys are ascending. -/
lemma sortedIds_sorted (df : List Row) : List.Sorted (· ≤ ·) (sortedIds df) :=
  List.sorted_insertionSort _ _

/-- The group keys are strictly ascending. -/
lemma sortedIds_lt (df : List Row) : List.Pairwise (· < ·) (sortedIds df) :=
  ((sortedIds_sorted df).and (sortedIds_nodup df)).imp
    (fun hab => lt_of_le_of_ne hab.1 hab.2)

/-- In the mutated branch (some group needed re-sorting), the id column of the
concatenated groups lists each group key once, in ascending order. -/
lemma flatMap_ids (df : List Row) :
    uniqueFirst ((((sortedIds df).flatMap (groupOf df))).map (fun r => r.taxiID)) =
      sortedIds df := by
  rw [List.map_flatMap]
  exact uniqueFirst_flatMap (sortedIds df) _ (sortedIds_nodup df)
    (fun k hk => groupOf_ne_nil df k hk)
    (fun k hk x hx => by
      rcases List.mem_map.mp hx with ⟨r, hr, hrx⟩
      rw [← hrx]
      exact mem_groupOf_id df k r hr)

/-- In both branches of the transform-detection dispatch, the sorted distinct
ids of the processed frame are the group keys, ascending. -/
lemma grpIds_eq (df : List Row) :
    List.insertionSort (· ≤ ·) (uniqueFirst ((processedSorted df).map (fun r => r.taxiID))) =
      sortedIds df := by
  unfold processedSorted
  by_cases h : allGroupsSorted df = true
  · rw [if_pos h]
    rfl
  · rw [if_neg h, flatMap_ids]
    exact List.Sorted.insertionSort_eq (sortedIds_sorted df)

/-- The processed frame is a permutation of the length-filtered frame in both
branches: no point of an eligible vehicle is lost or duplicated. -/
lemma processedSorted_perm (df : List Row) :
    (processedSorted df).Perm (processedRows df) := by
  unfold processedSorted
  by_cases h : allGroupsSorted df = true
  · rw [if_pos h]
  · rw [if_neg h]
    show ((sortedIds df).flatMap
        (fun k => sortByTime ((processedRows df).filter (fun r => r.taxiID == k)))).Perm
      (processedRows df)
    exact flatMap_groups_perm (sortedIds df) (processedRows df) (sortedIds_nodup df)
      (fun r hr => (mem_sortedIds df r.taxiID).mpr ⟨r, hr, rfl⟩)

/-- C1 (evaluation of the code at the failing input): on `exDf` — every
vehicle's points already time-ordered, vehicle 5 before vehicle 3 — pandas'
transform detection keeps the processed frame in original order, so
`unique()` emits `[5, 3]`, while the trajectory list is built by `groupby`,
which always orders vehicles ascending: it is `[vehicle 3's coordinates,
vehicle 5's coordinates]`, and those two coordinate sequences differ.
Position 0 of the two outputs therefore refers to different vehicles,
contradicting the claimed (and source-commented) alignment. -/
theorem preprocess_misaligned_at_exDf :
    (preprocess_data exDf).2.2 = [5, 3] ∧
    (preprocess_data exDf).1 =
      [trajOf (processedSorted exDf) 3, trajOf (processedSorted exDf) 5] ∧
    trajOf (processedSorted exDf) 3 ≠ trajOf (processedSorted exDf) 5 := by
  refine ⟨by decide, rfl, ?_⟩
  intro heq
  have h3 : trajOf (processedSorted exDf) 3 =
      [(some (30:ℝ), none), (some (30:ℝ), none)] := rfl
  have h5 : trajOf (processedSorted exDf) 5 =
      [(some (50:ℝ), none), (some (50:ℝ), none)] := rfl
  rw [h3, h5] at heq
  simp only [List.cons.injEq, Prod.mk.injEq, Option.some.injEq] at heq
  norm_num at heq

/-- C5 (amended): the Trajectory Builder's id list is the distinct eligible
vehicle ids; its order is first-appearance order of the length-filtered frame
when every vehicle's points are already time-ordered (pandas' transform
detection then keeps the original row order), and ascending id order
otherwise (the groups are concatenated in sorted-key order); the ascending
key order is strictly increasing, so both branches are deterministic. -/
theorem preprocess_ids_characterization (df : List Row) :
    (preprocess_data df).2.2 =
      (if allGroupsSorted df = true
        then uniqueFirst ((processedRows df).map (fun r => r.taxiID))
        else sortedIds df) ∧
    List.Pairwise (· < ·) (sortedIds df) := by
  constructor
  · show uniqueFirst ((processedSorted df).map (fun r => r.taxiID)) = _
    unfold processedSorted
    by_cases h : allGroupsSorted df = true
    · rw [if_pos h, if_pos h]
    · rw [if_neg h, if_neg h]
      exact flatMap_ids df
  · exact sortedIds_lt df

/-- Counterexample to C5 as stated: on an input in which vehicle 5 appears
before vehicle 3 (both eligible) and vehicle 5's points are out of time
order, the emitted id list is `[3, 5]` — ascending by id value — while the
first-appearance order of distinct ids in the input is `[5, 3]`; the output
order is therefore re-sorted by id value, not first-appearance order. -/
theorem preprocess_ids_not_first_appearance :
    (preprocess_data exDf2).2.2 = [3, 5] ∧
    uniqueFirst (exDf2.map (fun r => r.taxiID)) = [5, 3] ∧
    (preprocess_data exDf2).2.2 ≠ uniqueFirst (exDf2.map (fun r => r.taxiID)) := by
  refine ⟨by decide, by decide, by decide⟩
